import Mathlib

/-!
Verification development for the `rusthypergraph` hypergraph data engine.

The engine is a mutable store of nodes and hyperedges supporting weighting,
per-node/per-edge metadata, order/size-indexed queries, structural mutation
and derived-subgraph extraction.  The compiled extension module is not part
of the source tree (only its Python tests and callers are), so the store is
modelled here from the specification, with the unit tests' expected values
fixing the observable behaviour (enumeration orders, canonical forms,
scenario results).
-/

set_option autoImplicit false

namespace RHG

/-- Modelled from the spec: the error taxonomy of §7 — `NotFound`-class errors
(node, edge or attribute absent), `NotWeighted` (weight operation on an
unweighted store) and `InvalidInput` (malformed edge, mismatched batch
lengths). -/
inductive HErr where
  | nodeNotFound
  | edgeNotFound
  | attrNotFound
  | notWeighted
  | invalidInput
  deriving DecidableEq

/-- Modelled from the spec: the canonical form of a hyperedge — the sorted,
deduplicated node-tuple uniquely identifying it regardless of insertion
order. -/
def canonical (e : List Nat) : List Nat :=
  List.insertionSort (· ≤ ·) e.dedup

/-- Append to `ns` the members of `ce` that are not yet present, in the order
they occur in `ce` (first-appearance order). -/
def appendNew (ns : List Nat) (ce : List Nat) : List Nat :=
  ce.foldl (fun acc n => if n ∈ acc then acc else acc ++ [n]) ns

/-- Association-list lookup by decidable key equality (first match wins). -/
def alookup {α β : Type} [DecidableEq α] : List (α × β) → α → Option β
  | [], _ => none
  | p :: t, k => if p.1 = k then some p.2 else alookup t k

/-- Append `ce` to the bucket of key `k`, creating the bucket if absent. -/
def bucketAdd (idx : List (Nat × List (List Nat))) (k : Nat) (ce : List Nat) :
    List (Nat × List (List Nat)) :=
  match idx with
  | [] => [(k, [ce])]
  | b :: t => if b.1 = k then (b.1, b.2 ++ [ce]) :: t else b :: bucketAdd t k ce

/-- Overwrite (last-write-wins) the weight entry of canonical edge `ce`. -/
def setWeightEntry (ws : List (List Nat × ℚ)) (ce : List Nat) (w : ℚ) :
    List (List Nat × ℚ) :=
  (ce, w) :: ws.filter (fun p => decide (p.1 ≠ ce))

/-- Remove later duplicates, keeping the first occurrence of each element;
`seen` accumulates the elements already emitted. -/
def dedupFirstAux {α : Type} [DecidableEq α] (seen : List α) : List α → List α
  | [] => []
  | a :: t => if a ∈ seen then dedupFirstAux seen t else a :: dedupFirstAux (a :: seen) t

/-- Deduplicate a list keeping first occurrences (insertion order preserved). -/
def dedupFirst {α : Type} [DecidableEq α] (l : List α) : List α :=
  dedupFirstAux [] l

/-- Deduplicate an association list by key, keeping the first entry of each key. -/
def dedupKeysFirstAux {α β : Type} [DecidableEq α] (seen : List α) :
    List (α × β) → List (α × β)
  | [] => []
  | p :: t =>
    if p.1 ∈ seen then dedupKeysFirstAux seen t
    else p :: dedupKeysFirstAux (p.1 :: seen) t

/-- Deduplicate an association list by key (first entry of each key wins). -/
def dedupKeysFirst {α β : Type} [DecidableEq α] (l : List (α × β)) : List (α × β) :=
  dedupKeysFirstAux [] l

/-- Modelled from the spec: a tagged metadata value (numeric / string /
boolean variant), per the design note on dynamic metadata bags. -/
inductive MVal where
  | num (q : ℚ)
  | str (s : String)
  | boolean (b : Bool)

/-- Modelled from the spec: a metadata key is either a node id or a canonical
edge — metadata for nodes and for edges are separate namespaces. -/
inductive MKey where
  | node (n : Nat)
  | edge (e : List Nat)
  deriving DecidableEq

/-- Modelled from the spec: the Hypergraph Store state — weighted flag, edge
list in canonical form and insertion order, node list in first-appearance
order, weight table, metadata table, an incident-edge index from each node to
the edges containing it, and a size index from edge size to edge list. -/
structure HStore where
  weighted : Bool
  edges : List (List Nat)
  nodes : List Nat
  weights : List (List Nat × ℚ)
  meta : List (MKey × List (String × MVal))
  incident : List (Nat × List (List Nat))
  sizeIdx : List (Nat × List (List Nat))

/-- Modelled from the spec: a store created empty. -/
def emptyStore (weighted : Bool) : HStore :=
  ⟨weighted, [], [], [], [], [], []⟩

/-- Modelled from the spec: `add_node(id)` inserts the node if absent;
idempotent. -/
def add_node (h : HStore) (n : Nat) : HStore :=
  if n ∈ h.nodes then h else { h with nodes := h.nodes ++ [n] }

/-- Modelled from the spec: `add_nodes(ids)`, batch form of `add_node`. -/
def add_nodes (h : HStore) (ns : List Nat) : HStore :=
  ns.foldl add_node h

/-- Modelled from the spec: `add_edge(edge, weight?)` — canonicalizes, inserts
nodes not yet present, updates incident and size indices; a duplicate
insertion is a no-op on the edge set, and on a weighted store an explicitly
supplied weight overwrites the stored one (last-write-wins policy); a
zero-node edge is rejected as a no-op here (construction rejects it with an
error).  A weighted store gives default weight 1 to an edge inserted without
an explicit weight. -/
def add_edge (h : HStore) (e : List Nat) (w : Option ℚ) : HStore :=
  let ce := canonical e
  if ce = [] then h
  else if ce ∈ h.edges then
    { h with
      nodes := appendNew h.nodes ce
      weights :=
        match h.weighted, w with
        | true, some v => setWeightEntry h.weights ce v
        | _, _ => h.weights }
  else
    { h with
      edges := h.edges ++ [ce]
      nodes := appendNew h.nodes ce
      weights :=
        if h.weighted then setWeightEntry h.weights ce (w.getD 1) else h.weights
      incident := ce.foldl (fun idx n => bucketAdd idx n ce) h.incident
      sizeIdx := bucketAdd h.sizeIdx ce.length ce }

/-- Modelled from the spec: `add_edges(edge_list, weights?)`, batch form. -/
def add_edges (h : HStore) (es : List (List Nat)) (ws : Option (List ℚ)) : HStore :=
  match ws with
  | none => es.foldl (fun acc e => add_edge acc e none) h
  | some ws => (es.zip ws).foldl (fun acc p => add_edge acc p.1 (some p.2)) h

/-- Modelled from the spec: `remove_edge(edge)` removes by canonical form and
updates all indices (weight table, incident index, size index); a no-op when
the edge is absent. -/
def remove_edge (h : HStore) (e : List Nat) : HStore :=
  let ce := canonical e
  { h with
    edges := h.edges.filter (fun x => decide (x ≠ ce))
    weights := h.weights.filter (fun p => decide (p.1 ≠ ce))
    incident := h.incident.map (fun b => (b.1, b.2.filter (fun x => decide (x ≠ ce))))
    sizeIdx := h.sizeIdx.map (fun b => (b.1, b.2.filter (fun x => decide (x ≠ ce)))) }

/-- Modelled from the spec: `remove_edges(edge_list)`, batch form. -/
def remove_edges (h : HStore) (es : List (List Nat)) : HStore :=
  es.foldl remove_edge h

/-- Rebuild the incident-edge index from an edge list. -/
def buildIncident (es : List (List Nat)) : List (Nat × List (List Nat)) :=
  es.foldl (fun idx ce => ce.foldl (fun i n => bucketAdd i n ce) idx) []

/-- Rebuild the size index from an edge list. -/
def buildSizeIdx (es : List (List Nat)) : List (Nat × List (List Nat)) :=
  es.foldl (fun idx ce => bucketAdd idx ce.length ce) []

/-- Modelled from the spec: `remove_node(id, keep_edges)` — removes the node
from the node set; if `keep_edges` is false, also removes every edge incident
to it, updating the order/size and incident-edge indices and the weight
table; if true, rewrites incident edges to drop the node as a member (an edge
that becomes empty is deleted, edges that collapse to the same canonical form
are merged keeping the first) and rebuilds the indices. -/
def remove_node (h : HStore) (n : Nat) (keepEdges : Bool) : HStore :=
  if keepEdges then
    let rw := fun (ce : List Nat) => ce.filter (fun x => decide (x ≠ n))
    let edges := dedupFirst ((h.edges.map rw).filter (fun x => decide (x ≠ [])))
    { weighted := h.weighted
      edges := edges
      nodes := h.nodes.filter (fun x => decide (x ≠ n))
      weights := dedupKeysFirst (h.weights.filterMap
        (fun p => if rw p.1 = [] then none else some (rw p.1, p.2)))
      meta := h.meta
      incident := buildIncident edges
      sizeIdx := buildSizeIdx edges }
  else
    { h with
      nodes := h.nodes.filter (fun x => decide (x ≠ n))
      edges := h.edges.filter (fun ce => decide (n ∉ ce))
      weights := h.weights.filter (fun p => decide (n ∉ p.1))
      incident := (h.incident.filter (fun b => decide (b.1 ≠ n))).map
        (fun b => (b.1, b.2.filter (fun ce => decide (n ∉ ce))))
      sizeIdx := h.sizeIdx.map (fun b => (b.1, b.2.filter (fun ce => decide (n ∉ ce)))) }

/-- Modelled from the spec: `remove_nodes(ids, keep_edges)`, batch form,
applied as if nodes were removed one at a time in insertion order of `ids`. -/
def remove_nodes (h : HStore) (ns : List Nat) (keepEdges : Bool) : HStore :=
  ns.foldl (fun acc n => remove_node acc n keepEdges) h

/-- Modelled from the spec: `check_node(id)`, boolean existence test. -/
def check_node (h : HStore) (n : Nat) : Bool :=
  decide (n ∈ h.nodes)

/-- Modelled from the spec: `check_edge(edge)`, canonical-form membership test. -/
def check_edge (h : HStore) (e : List Nat) : Bool :=
  decide (canonical e ∈ h.edges)

/-- Modelled from the spec: the explicit filter-descriptor type of the design
notes, with variants ByOrder(value, up_to), BySize(value, up_to), NoFilter. -/
inductive EdgeFilter where
  | noFilter
  | byOrder (v : Nat) (upTo : Bool)
  | bySize (v : Nat) (upTo : Bool)

/-- Modelled from the spec: whether a canonical edge matches an order/size
filter; `up_to=true` means all orders/sizes up to the given value, else exact
match (order = size − 1). -/
def matchesFilter (f : EdgeFilter) (ce : List Nat) : Bool :=
  match f with
  | .noFilter => true
  | .byOrder v u => if u then decide (ce.length - 1 ≤ v) else decide (ce.length - 1 = v)
  | .bySize v u => if u then decide (ce.length ≤ v) else decide (ce.length = v)

/-- Modelled from the spec: `get_nodes()` produces the sequence of node ids. -/
def get_nodes (h : HStore) : List Nat :=
  h.nodes

/-- Modelled from the spec: `get_edges(order?, size?, up_to)` filters the
edges by order/size in the store's edge enumeration order. -/
def get_edges (h : HStore) (f : EdgeFilter) : List (List Nat) :=
  h.edges.filter (matchesFilter f)

/-- Modelled from the spec: `num_nodes()`. -/
def num_nodes (h : HStore) : Nat :=
  h.nodes.length

/-- Modelled from the spec: `num_edges(order?, size?, up_to)` counts the edges
matching the filter. -/
def num_edges (h : HStore) (f : EdgeFilter) : Nat :=
  h.edges.countP (matchesFilter f)

/-- Modelled from the spec: `get_orders()`, the per-edge order values in edge
enumeration order. -/
def get_orders (h : HStore) : List Nat :=
  h.edges.map (fun ce => ce.length - 1)

/-- Modelled from the spec: `get_sizes()`, the per-edge size values in edge
enumeration order. -/
def get_sizes (h : HStore) : List Nat :=
  h.edges.map List.length

/-- Modelled from the spec: `max_order()`, maximum order across the current
edge set, with sentinel 0 on an empty store. -/
def max_order (h : HStore) : Nat :=
  h.edges.foldl (fun m ce => max m (ce.length - 1)) 0

/-- Modelled from the spec: `max_size()`, maximum size across the current
edge set, with sentinel 0 on an empty store. -/
def max_size (h : HStore) : Nat :=
  h.edges.foldl (fun m ce => max m ce.length) 0

/-- Modelled from the spec: `is_uniform()`, true iff every edge has identical
size. -/
def is_uniform (h : HStore) : Bool :=
  match h.edges with
  | [] => true
  | ce :: t => t.all (fun x => decide (x.length = ce.length))

/-- Modelled from the spec: `is_weighted()`. -/
def is_weighted (h : HStore) : Bool :=
  h.weighted

/-- Modelled from the spec: `distribution_sizes()`, a mapping from size to
count of edges of that size. -/
def distribution_sizes (h : HStore) : List (Nat × Nat) :=
  (dedupFirst (h.edges.map List.length)).map
    (fun s => (s, h.edges.countP (fun ce => decide (ce.length = s))))

/-- Modelled from the spec: `get_incident_edges(node, order?, size?)`, all
edges containing the node, optionally filtered by order/size. -/
def get_incident_edges (h : HStore) (n : Nat) (f : EdgeFilter) : List (List Nat) :=
  ((alookup h.incident n).getD []).filter (matchesFilter f)

/-- Modelled from the spec: `get_neighbors(node)`, all nodes co-occurring with
the node in any incident edge, excluding the node itself. -/
def get_neighbors (h : HStore) (n : Nat) : List Nat :=
  dedupFirst (((alookup h.incident n).getD []).foldl
    (fun acc ce => acc ++ ce.filter (fun x => decide (x ≠ n))) [])

/-- Modelled from the spec: `get_mapping()`, a bijective encoder between the
node-id domain and `[0, num_nodes)`; the sorted class list, with a node's
image being its position. -/
def get_mapping (h : HStore) : List Nat :=
  canonical h.nodes

/-- Modelled from the spec: `get_weight(edge)` — fails with `NotWeighted` if
the store is unweighted, with `EdgeNotFound` if the edge is absent; never
silently returns a default. -/
def get_weight (h : HStore) (e : List Nat) : Except HErr ℚ :=
  if h.weighted = false then .error .notWeighted
  else if canonical e ∈ h.edges then
    match alookup h.weights (canonical e) with
    | some w => .ok w
    | none => .error .edgeNotFound
  else .error .edgeNotFound

/-- Modelled from the spec: `set_weight(edge, value)` — last-write-wins; fails
with `NotWeighted` if the store is unweighted, with `EdgeNotFound` if the
edge is absent. -/
def set_weight (h : HStore) (e : List Nat) (w : ℚ) : Except HErr HStore :=
  if h.weighted = false then .error .notWeighted
  else if canonical e ∈ h.edges then
    .ok { h with weights := setWeightEntry h.weights (canonical e) w }
  else .error .edgeNotFound

/-- Modelled from the spec: `get_weights(order?, size?, up_to)`, the ordered
sequence of weights of the edges matching the filter. -/
def get_weights (h : HStore) (f : EdgeFilter) : List ℚ :=
  (h.edges.filter (matchesFilter f)).filterMap (alookup h.weights)

/-- Modelled from the spec: `set_meta(obj, attr)` attaches a metadata mapping
to a node or canonical edge. -/
def set_meta (h : HStore) (k : MKey) (m : List (String × MVal)) : HStore :=
  { h with meta := (k, m) :: h.meta.filter (fun p => decide (p.1 ≠ k)) }

/-- Modelled from the spec: `get_meta(obj)` reads the whole metadata mapping,
failing with a `NotFound`-class error when the object is missing. -/
def get_meta (h : HStore) (k : MKey) : Except HErr (List (String × MVal)) :=
  match alookup h.meta k with
  | some m => .ok m
  | none =>
    match k with
    | .node _ => .error .nodeNotFound
    | .edge _ => .error .edgeNotFound

/-- Modelled from the spec: `get_attr_meta(obj, key)` reads a single
attribute, failing with a `NotFound`-class error when missing. -/
def get_attr_meta (h : HStore) (k : MKey) (a : String) : Except HErr MVal :=
  match alookup h.meta k with
  | some m =>
    match alookup m a with
    | some v => .ok v
    | none => .error .attrNotFound
  | none => .error .attrNotFound

/-- Modelled from the spec: store construction from a bulk edge list with an
optional parallel weight list — rejects zero-node edges, a weight list on an
unweighted store, and mismatched list lengths, all at construction time. -/
def fromEdgeList (weighted : Bool) (es : List (List Nat)) (ws : Option (List ℚ)) :
    Except HErr HStore :=
  if es.any (fun e => decide (canonical e = [])) then .error .invalidInput
  else
    match ws with
    | none => .ok (add_edges (emptyStore weighted) es none)
    | some ws =>
      if weighted = false then .error .invalidInput
      else if ws.length = es.length then .ok (add_edges (emptyStore weighted) es (some ws))
      else .error .invalidInput

/-- Modelled from the spec: `subhypergraph(nodes)` — a new store containing
only the edges fully contained in the given nodes, and only those nodes. -/
def subhypergraph (h : HStore) (s : List Nat) : HStore :=
  let kept := h.edges.filter (fun ce => ce.all (fun x => decide (x ∈ s)))
  { weighted := h.weighted
    edges := kept
    nodes := dedupFirst s
    weights := h.weights.filter (fun p => p.1.all (fun x => decide (x ∈ s)))
    meta := h.meta
    incident := buildIncident kept
    sizeIdx := buildSizeIdx kept }

/-- Modelled from the spec: `subhypergraph_by_orders(orders, keep_nodes)` — a
new store with the edges whose order is in `orders`; the node set is all
original nodes when `keep_nodes`, else exactly the members of retained
edges. -/
def subhypergraph_by_orders (h : HStore) (orders : List Nat) (keepNodes : Bool) :
    HStore :=
  let kept := h.edges.filter (fun ce => decide (ce.length - 1 ∈ orders))
  { weighted := h.weighted
    edges := kept
    nodes :=
      if keepNodes then h.nodes
      else h.nodes.filter (fun n => kept.any (fun ce => decide (n ∈ ce)))
    weights := h.weights.filter (fun p => decide (p.1.length - 1 ∈ orders))
    meta := h.meta
    incident := buildIncident kept
    sizeIdx := buildSizeIdx kept }

/-- Modelled from the spec: `get_edges(..., subhypergraph=true,
keep_isolated_nodes)` — a new store containing exactly the filtered edges,
and all original nodes when `keep_isolated_nodes`. -/
def get_edges_subhypergraph (h : HStore) (f : EdgeFilter) (keepIso : Bool) : HStore :=
  let kept := h.edges.filter (matchesFilter f)
  { weighted := h.weighted
    edges := kept
    nodes :=
      if keepIso then h.nodes
      else h.nodes.filter (fun n => kept.any (fun ce => decide (n ∈ ce)))
    weights := h.weights.filter (matchesFilter f ∘ Prod.fst)
    meta := h.meta
    incident := buildIncident kept
    sizeIdx := buildSizeIdx kept }

/-- Modelled from the spec: the public operations of §4, as issued by the
benchmarking/test harness collaborator. -/
inductive Op where
  | addNode (n : Nat)
  | addNodes (ns : List Nat)
  | removeNode (n : Nat) (keepEdges : Bool)
  | removeNodes (ns : List Nat) (keepEdges : Bool)
  | checkNode (n : Nat)
  | addEdge (e : List Nat) (w : Option ℚ)
  | addEdges (es : List (List Nat)) (ws : Option (List ℚ))
  | removeEdge (e : List Nat)
  | removeEdges (es : List (List Nat))
  | checkEdge (e : List Nat)
  | getWeight (e : List Nat)
  | setWeight (e : List Nat) (w : ℚ)
  | getWeights (f : EdgeFilter)
  | setMeta (k : MKey) (m : List (String × MVal))
  | getMeta (k : MKey)
  | getAttrMeta (k : MKey) (a : String)
  | getNodes
  | getEdges (f : EdgeFilter)
  | getEdgesSub (f : EdgeFilter) (keepIso : Bool)
  | getOrders
  | getSizes
  | numNodes
  | numEdges (f : EdgeFilter)
  | maxOrder
  | maxSize
  | isUniform
  | isWeighted
  | distributionSizes
  | getIncidentEdges (n : Nat) (f : EdgeFilter)
  | getNeighbors (n : Nat)
  | getMapping
  | subgraph (s : List Nat)
  | subgraphByOrders (orders : List Nat) (keepNodes : Bool)

/-- Observable result of a single public operation. -/
inductive Out where
  | unit
  | err (e : HErr)
  | flag (b : Bool)
  | count (n : Nat)
  | ids (l : List Nat)
  | edgeSeq (l : List (List Nat))
  | weight (w : ℚ)
  | weightSeq (ws : List ℚ)
  | metaMap (m : List (String × MVal))
  | metaVal (v : MVal)
  | dist (d : List (Nat × Nat))
  | store (h : HStore)

/-- Modelled from the spec: one step of the harness — apply a public
operation to the store and observe its result. -/
def step (h : HStore) (op : Op) : HStore × Out :=
  match op with
  | .addNode n => (add_node h n, .unit)
  | .addNodes ns => (add_nodes h ns, .unit)
  | .removeNode n k => (remove_node h n k, .unit)
  | .removeNodes ns k => (remove_nodes h ns k, .unit)
  | .checkNode n => (h, .flag (check_node h n))
  | .addEdge e w => (add_edge h e w, .unit)
  | .addEdges es ws => (add_edges h es ws, .unit)
  | .removeEdge e => (remove_edge h e, .unit)
  | .removeEdges es => (remove_edges h es, .unit)
  | .checkEdge e => (h, .flag (check_edge h e))
  | .getWeight e =>
    match get_weight h e with
    | .ok w => (h, .weight w)
    | .error er => (h, .err er)
  | .setWeight e w =>
    match set_weight h e w with
    | .ok h' => (h', .unit)
    | .error er => (h, .err er)
  | .getWeights f => (h, .weightSeq (get_weights h f))
  | .setMeta k m => (set_meta h k m, .unit)
  | .getMeta k =>
    match get_meta h k with
    | .ok m => (h, .metaMap m)
    | .error er => (h, .err er)
  | .getAttrMeta k a =>
    match get_attr_meta h k a with
    | .ok v => (h, .metaVal v)
    | .error er => (h, .err er)
  | .getNodes => (h, .ids (get_nodes h))
  | .getEdges f => (h, .edgeSeq (get_edges h f))
  | .getEdgesSub f k => (h, .store (get_edges_subhypergraph h f k))
  | .getOrders => (h, .ids (get_orders h))
  | .getSizes => (h, .ids (get_sizes h))
  | .numNodes => (h, .count (num_nodes h))
  | .numEdges f => (h, .count (num_edges h f))
  | .maxOrder => (h, .count (max_order h))
  | .maxSize => (h, .count (max_size h))
  | .isUniform => (h, .flag (is_uniform h))
  | .isWeighted => (h, .flag (is_weighted h))
  | .distributionSizes => (h, .dist (distribution_sizes h))
  | .getIncidentEdges n f => (h, .edgeSeq (get_incident_edges h n f))
  | .getNeighbors n => (h, .ids (get_neighbors h n))
  | .getMapping => (h, .ids (get_mapping h))
  | .subgraph s => (h, .store (subhypergraph h s))
  | .subgraphByOrders o k => (h, .store (subhypergraph_by_orders h o k))

/-- Modelled from the spec: a run of the harness — a sequence of public
operations applied from an initial state, collecting every operation's
result. -/
def run (h : HStore) : List Op → HStore × List Out
  | [] => (h, [])
  | op :: ops =>
    let s := step h op
    let r := run s.1 ops
    (r.1, s.2 :: r.2)

/-- Modelled from the spec: the store states reachable through the lifecycle —
created empty or from a bulk edge list, then mutated by any sequence of
public operations. -/
inductive Reachable : HStore → Prop where
  | base (w : Bool) : Reachable (emptyStore w)
  | ctor (w : Bool) (es : List (List Nat)) (ws : Option (List ℚ)) (h : HStore) :
      fromEdgeList w es ws = .ok h → Reachable h
  | app (h : HStore) (op : Op) : Reachable h → Reachable (step h op).1

/-- The edge list of the test scenario store. -/
def scenarioEdges : List (List Nat) := [[1, 2], [2, 3], [4, 3, 5, 6, 8], [2, 3, 5, 6], [7, 4, 6]]

/-- The weight list of the test scenario store. -/
def scenarioWeights : List ℚ := [1, 2, 1, 3, 1]

/-- Per-edge first-appearance enumeration of node identifiers: traverse the
canonicalized edges in insertion order and append each member not yet seen. -/
def nodesFirstAppearance (es : List (List Nat)) : List Nat :=
  es.foldl (fun ns e => appendNew ns (canonical e)) []

/-! ## Basic lemmas about the model -/

/-- Appending nothing introduces no nodes. -/
theorem appendNew_nil (ns : List Nat) : appendNew ns [] = ns := rfl

/-- Canonicalization is invariant under permutation of the member list. -/
theorem canonical_perm {l l' : List Nat} (hp : l.Perm l') : canonical l = canonical l' :=
  List.eq_of_perm_of_sorted
    ((List.perm_insertionSort _ _).trans (hp.dedup.trans (List.perm_insertionSort _ _).symm))
    (List.sorted_insertionSort _ _) (List.sorted_insertionSort _ _)

/-- Inserting an edge already stored leaves the edge list unchanged. -/
theorem add_edge_edges_of_mem (h : HStore) (e : List Nat) (w : Option ℚ)
    (hm : canonical e ∈ h.edges) : (add_edge h e w).edges = h.edges := by
  simp only [add_edge]
  split_ifs <;> rfl

/-- After inserting a nonempty edge, its canonical form is stored. -/
theorem mem_edges_add_edge (h : HStore) (e : List Nat) (w : Option ℚ)
    (hne : canonical e ≠ []) : canonical e ∈ (add_edge h e w).edges := by
  simp only [add_edge]
  split_ifs with h1 h2 <;>
    first
    | exact absurd h1 hne
    | exact h2
    | exact List.mem_append_right _ (List.mem_singleton.mpr rfl)

/-- Inserting an edge updates the node list by first-appearance append of the
canonical members. -/
theorem add_edge_nodes (h : HStore) (e : List Nat) (w : Option ℚ) :
    (add_edge h e w).nodes = appendNew h.nodes (canonical e) := by
  simp only [add_edge]
  split_ifs with h1 h2 <;> first | rw [h1, appendNew_nil] | rfl

/-- A removed edge is absent from the edge list. -/
theorem remove_edge_edges_not_mem (h : HStore) (e : List Nat) :
    canonical e ∉ (remove_edge h e).edges := by
  intro hm
  simp only [remove_edge, List.mem_filter, decide_eq_true_eq] at hm
  exact hm.2 rfl

/-- A removed edge is absent from every bucket of the incident-edge index. -/
theorem remove_edge_incident_not_mem (h : HStore) (e : List Nat) :
    ∀ b ∈ (remove_edge h e).incident, canonical e ∉ b.2 := by
  intro b hb hm
  simp only [remove_edge, List.mem_map] at hb
  obtain ⟨b0, _, rfl⟩ := hb
  simp only [List.mem_filter, decide_eq_true_eq] at hm
  exact hm.2 rfl

/-- A removed edge is absent from every bucket of the size index. -/
theorem remove_edge_sizeIdx_not_mem (h : HStore) (e : List Nat) :
    ∀ b ∈ (remove_edge h e).sizeIdx, canonical e ∉ b.2 := by
  intro b hb hm
  simp only [remove_edge, List.mem_map] at hb
  obtain ⟨b0, _, rfl⟩ := hb
  simp only [List.mem_filter, decide_eq_true_eq] at hm
  exact hm.2 rfl

/-- Membership in first-occurrence deduplication with an accumulator of
already-seen elements. -/
theorem mem_dedupFirstAux {α : Type} [DecidableEq α] (x : α) (l : List α) :
    ∀ seen : List α, x ∈ dedupFirstAux seen l ↔ x ∈ l ∧ x ∉ seen := by
  induction l with
  | nil => intro seen; simp [dedupFirstAux]
  | cons a t ih =>
    intro seen
    simp only [dedupFirstAux]
    split_ifs with ha
    · rw [ih]
      constructor
      · rintro ⟨hxt, hxs⟩
        exact ⟨List.mem_cons_of_mem _ hxt, hxs⟩
      · rintro ⟨hxc, hxs⟩
        rcases List.mem_cons.mp hxc with rfl | hxt
        · exact absurd ha hxs
        · exact ⟨hxt, hxs⟩
    · constructor
      · intro hx
        rcases List.mem_cons.mp hx with rfl | hx'
        · exact ⟨List.mem_cons_self _ _, ha⟩
        · rw [ih] at hx'
          obtain ⟨hxt, hxs⟩ := hx'
          exact ⟨List.mem_cons_of_mem _ hxt, fun hh => hxs (List.mem_cons_of_mem _ hh)⟩
      · rintro ⟨hxc, hxs⟩
        rcases List.mem_cons.mp hxc with rfl | hxt
        · exact List.mem_cons_self _ _
        · by_cases hxa : x = a
          · subst hxa; exact List.mem_cons_self _ _
          · refine List.mem_cons_of_mem _ ?_
            rw [ih]
            exact ⟨hxt, fun hh => (List.mem_cons.mp hh).elim hxa hxs⟩

/-- First-occurrence deduplication preserves membership. -/
theorem mem_dedupFirst {α : Type} [DecidableEq α] (x : α) (l : List α) :
    x ∈ dedupFirst l ↔ x ∈ l := by
  simp [dedupFirst, mem_dedupFirstAux]

/-- Bulk weighted insertion updates the node list by first-appearance append
over the canonicalized edges in insertion order. -/
theorem add_edges_weighted_nodes :
    ∀ (es : List (List Nat)) (ws : List ℚ) (h : HStore), es.length = ws.length →
      (add_edges h es (some ws)).nodes =
        es.foldl (fun ns e => appendNew ns (canonical e)) h.nodes := by
  intro es
  induction es with
  | nil => intro ws h _; rfl
  | cons e t ih =>
    intro ws h hlen
    cases ws with
    | nil => simp at hlen
    | cons w wt =>
      have ht : t.length = wt.length := by simpa using hlen
      have := ih wt (add_edge h e (some w)) ht
      simp only [add_edges] at this ⊢
      simp only [List.zip_cons_cons, List.foldl_cons]
      rw [this, add_edge_nodes]

/-! ## The claims -/

/-- Claim C1: edge identity is insertion-order independent — for every list of
node identifiers, inserting an edge with those members and then any
permutation of the same member set yields the same single stored edge in
canonical sorted, deduplicated form; in particular inserting (4,3,5,6,8) and
(8,6,5,4,3) results in exactly one stored edge (3,4,5,6,8). -/
theorem edge_identity_insertion_order_independent (l l' : List Nat)
    (w w' : Option ℚ) (h : HStore) (hp : l.Perm l') :
    canonical l' = canonical l
    ∧ (add_edge (add_edge h l w) l' w').edges = (add_edge h l w).edges
    ∧ (add_edge (add_edge (emptyStore false) [4, 3, 5, 6, 8] none)
        [8, 6, 5, 4, 3] none).edges = [[3, 4, 5, 6, 8]] := by
  have hc : canonical l' = canonical l := (canonical_perm hp).symm
  refine ⟨hc, ?_, by rfl⟩
  by_cases hnil : canonical l = []
  · simp only [add_edge, hc, hnil, if_pos]
  · have hm : canonical l' ∈ (add_edge h l w).edges := by
      rw [hc]; exact mem_edges_add_edge h l w hnil
    exact add_edge_edges_of_mem _ _ w' hm

/-- Witness for C1 at the concrete pair of member lists from the tests. -/
theorem edge_identity_insertion_order_independent_witness :
    canonical [8, 6, 5, 4, 3] = canonical [4, 3, 5, 6, 8]
    ∧ (add_edge (add_edge (emptyStore true) [4, 3, 5, 6, 8] none)
        [8, 6, 5, 4, 3] none).edges = (add_edge (emptyStore true) [4, 3, 5, 6, 8] none).edges
    ∧ (add_edge (add_edge (emptyStore false) [4, 3, 5, 6, 8] none)
        [8, 6, 5, 4, 3] none).edges = [[3, 4, 5, 6, 8]] :=
  edge_identity_insertion_order_independent [4, 3, 5, 6, 8] [8, 6, 5, 4, 3]
    none none (emptyStore true) (by decide)

/-- Claim C2: the store built weighted from the scenario edge list
[(1,2),(2,3),(4,3,5,6,8),(2,3,5,6),(7,4,6)] with weights [1,2,1,3,1] answers
num_edges() = 5, max_order() = 4, max_size() = 5, is_uniform() = false, and
get_weight((2,3,5,6)) = 3. -/
theorem scenario_store_queries :
    (fromEdgeList true scenarioEdges (some scenarioWeights)).map
      (fun s => (num_edges s .noFilter, max_order s, max_size s, is_uniform s)) =
      .ok (5, 4, 5, false)
    ∧ (fromEdgeList true scenarioEdges (some scenarioWeights)).bind
      (fun s => get_weight s [2, 3, 5, 6]) = .ok 3 :=
  ⟨rfl, rfl⟩

/-- Claim C3: in every reachable store state, num_nodes() equals the length of
get_nodes(), and num_edges() with no filter equals the length of get_edges()
with no filter. -/
theorem counts_agree_with_enumerations (h : HStore) (hr : Reachable h) :
    num_nodes h = (get_nodes h).length
    ∧ num_edges h .noFilter = (get_edges h .noFilter).length := by
  refine ⟨rfl, ?_⟩
  simp [num_edges, get_edges, List.countP_eq_length_filter]

/-- Witness for C3 at the empty store, reachable by construction. -/
theorem counts_agree_with_enumerations_witness :
    num_nodes (emptyStore true) = (get_nodes (emptyStore true)).length
    ∧ num_edges (emptyStore true) .noFilter =
      (get_edges (emptyStore true) .noFilter).length :=
  counts_agree_with_enumerations (emptyStore true) (Reachable.base true)

/-- Claim C4: for every valid edge, after it is inserted with add_edge and then
removed with remove_edge, check_edge returns false and no index — edge set,
incident-edge index, size index — retains it. -/
theorem insert_then_remove_clears_edge (h : HStore) (e : List Nat)
    (w : Option ℚ) (hv : canonical e ≠ []) :
    check_edge (remove_edge (add_edge h e w) e) e = false
    ∧ canonical e ∉ (remove_edge (add_edge h e w) e).edges
    ∧ (∀ b ∈ (remove_edge (add_edge h e w) e).incident, canonical e ∉ b.2)
    ∧ (∀ b ∈ (remove_edge (add_edge h e w) e).sizeIdx, canonical e ∉ b.2) := by
  refine ⟨?_, remove_edge_edges_not_mem _ _, remove_edge_incident_not_mem _ _,
    remove_edge_sizeIdx_not_mem _ _⟩
  exact decide_eq_false (remove_edge_edges_not_mem _ _)

/-- Witness for C4 at the edge (1,2) on the empty store. -/
theorem insert_then_remove_clears_edge_witness :
    check_edge (remove_edge (add_edge (emptyStore false) [1, 2] none) [1, 2]) [1, 2] = false
    ∧ canonical [1, 2] ∉ (remove_edge (add_edge (emptyStore false) [1, 2] none) [1, 2]).edges
    ∧ (∀ b ∈ (remove_edge (add_edge (emptyStore false) [1, 2] none) [1, 2]).incident,
        canonical [1, 2] ∉ b.2)
    ∧ (∀ b ∈ (remove_edge (add_edge (emptyStore false) [1, 2] none) [1, 2]).sizeIdx,
        canonical [1, 2] ∉ b.2) :=
  insert_then_remove_clears_edge (emptyStore false) [1, 2] none (by decide)

/-- Claim C5: weight round trip — on any weighted store, for every stored edge
and weight value, set_weight followed by get_weight returns that value. -/
theorem set_get_weight_round_trip (h : HStore) (e : List Nat) (w : ℚ)
    (hw : h.weighted = true) (hm : canonical e ∈ h.edges) :
    ∃ h', set_weight h e w = .ok h' ∧ get_weight h' e = .ok w := by
  refine ⟨{ h with weights := setWeightEntry h.weights (canonical e) w }, ?_, ?_⟩
  · simp [set_weight, hw, hm]
  · simp [get_weight, hw, hm, setWeightEntry, alookup]

/-- Witness for C5: round trip of weight 7 on the edge (1,2) of a concrete
weighted store. -/
theorem set_get_weight_round_trip_witness :
    ∃ h', set_weight (add_edge (emptyStore true) [1, 2] none) [1, 2] 7 = .ok h'
      ∧ get_weight h' [1, 2] = .ok 7 :=
  set_get_weight_round_trip (add_edge (emptyStore true) [1, 2] none) [1, 2] 7
    rfl (by decide)

/-- Claim C6: get_weight and set_weight fail with NotWeighted whenever the
store is unweighted, and with EdgeNotFound whenever the edge is absent from a
weighted store; they never silently return a default in those cases. -/
theorem weight_ops_error_semantics (h : HStore) (e : List Nat) (w : ℚ) :
    (h.weighted = false →
      get_weight h e = .error .notWeighted ∧ set_weight h e w = .error .notWeighted)
    ∧ (h.weighted = true → canonical e ∉ h.edges →
      get_weight h e = .error .edgeNotFound ∧ set_weight h e w = .error .edgeNotFound) := by
  constructor
  · intro hw
    constructor <;> simp [get_weight, set_weight, hw]
  · intro hw hm
    constructor <;> simp [get_weight, set_weight, hw, hm]

/-- Witness for C6: the two error cases at concrete stores and edge (1,2). -/
theorem weight_ops_error_semantics_witness :
    get_weight (emptyStore false) [1, 2] = .error .notWeighted
    ∧ get_weight (emptyStore true) [1, 2] = .error .edgeNotFound :=
  ⟨((weight_ops_error_semantics (emptyStore false) [1, 2] 0).1 rfl).1,
   ((weight_ops_error_semantics (emptyStore true) [1, 2] 0).2 rfl (by decide)).1⟩

/-- Claim C7: remove_node(id, keep_edges=false) removes the node from the node
set and every edge incident to it, updating the incident-edge and size
indices; in particular remove_node(3, keep_edges=false) on the scenario store
removes every edge containing node 3 and leaves get_nodes() without 3. -/
theorem remove_node_cascades (h : HStore) (n : Nat) :
    n ∉ get_nodes (remove_node h n false)
    ∧ (remove_node h n false).edges = h.edges.filter (fun ce => decide (n ∉ ce))
    ∧ (∀ ce ∈ (remove_node h n false).edges, n ∉ ce)
    ∧ (∀ b ∈ (remove_node h n false).incident, b.1 ≠ n ∧ ∀ ce ∈ b.2, n ∉ ce)
    ∧ (∀ b ∈ (remove_node h n false).sizeIdx, ∀ ce ∈ b.2, n ∉ ce)
    ∧ (fromEdgeList true scenarioEdges (some scenarioWeights)).map
        (fun s => (get_nodes (remove_node s 3 false),
          get_edges (remove_node s 3 false) .noFilter))
      = .ok ([1, 2, 4, 5, 6, 8, 7], [[1, 2], [4, 6, 7]]) := by
  refine ⟨?_, rfl, ?_, ?_, ?_, by rfl⟩
  · intro hm
    simp only [get_nodes, remove_node, if_neg Bool.false_ne_true, List.mem_filter,
      decide_eq_true_eq] at hm
    exact hm.2 rfl
  · intro ce hce
    simp only [remove_node, if_neg Bool.false_ne_true, List.mem_filter,
      decide_eq_true_eq] at hce
    exact hce.2
  · intro b hb
    simp only [remove_node, if_neg Bool.false_ne_true, List.mem_map,
      List.mem_filter, decide_eq_true_eq] at hb
    obtain ⟨b0, ⟨_, hb0⟩, rfl⟩ := hb
    refine ⟨hb0, ?_⟩
    intro ce hce
    simp only [List.mem_filter, decide_eq_true_eq] at hce
    exact hce.2
  · intro b hb ce hce
    simp only [remove_node, if_neg Bool.false_ne_true, List.mem_map] at hb
    obtain ⟨b0, _, rfl⟩ := hb
    simp only [List.mem_filter, decide_eq_true_eq] at hce
    exact hce.2

/-- Claim C8: subhypergraph(S) returns a store whose edge set is exactly the
original edges fully contained in S and whose node set is exactly S; in
particular subhypergraph([1,2,4]) on the scenario store has nodes [1,2,4] and
the single edge (1,2). -/
theorem subhypergraph_restricts (h : HStore) (s : List Nat) :
    (∀ ce, ce ∈ (subhypergraph h s).edges ↔ ce ∈ h.edges ∧ ∀ x ∈ ce, x ∈ s)
    ∧ (∀ x, x ∈ get_nodes (subhypergraph h s) ↔ x ∈ s)
    ∧ (fromEdgeList true scenarioEdges (some scenarioWeights)).map
        (fun st => (get_nodes (subhypergraph st [1, 2, 4]),
          get_edges (subhypergraph st [1, 2, 4]) .noFilter))
      = .ok ([1, 2, 4], [[1, 2]]) := by
  refine ⟨?_, ?_, by rfl⟩
  · intro ce
    simp [subhypergraph, List.mem_filter, List.all_eq_true]
  · intro x
    simp [subhypergraph, get_nodes, mem_dedupFirst]

/-- Claim C9: determinism — two runs from identical initial store states
issuing the identical sequence of public operations return identical results
for every operation, and end in identical states. -/
theorem runs_deterministic (s1 s2 : HStore) (ops : List Op) (hinit : s1 = s2) :
    (run s1 ops).2 = (run s2 ops).2 ∧ (run s1 ops).1 = (run s2 ops).1 := by
  subst hinit
  exact ⟨rfl, rfl⟩

/-- Witness for C9 at the empty store and a one-operation trace. -/
theorem runs_deterministic_witness :
    (run (emptyStore true) [Op.numNodes]).2 = (run (emptyStore true) [Op.numNodes]).2
    ∧ (run (emptyStore true) [Op.numNodes]).1 = (run (emptyStore true) [Op.numNodes]).1 :=
  runs_deterministic (emptyStore true) (emptyStore true) [Op.numNodes] rfl

/-- Claim C10: get_nodes() enumerates node identifiers in first-appearance
order over the canonicalized edges in insertion order, not in sorted order;
the scenario store yields [1, 2, 3, 4, 5, 6, 8, 7], with 8 preceding 7. -/
theorem get_nodes_first_appearance_order :
    (∀ (es : List (List Nat)) (ws : List ℚ) (h : HStore),
      fromEdgeList true es (some ws) = .ok h → get_nodes h = nodesFirstAppearance es)
    ∧ (fromEdgeList true scenarioEdges (some scenarioWeights)).map get_nodes
      = .ok [1, 2, 3, 4, 5, 6, 8, 7] := by
  refine ⟨?_, by rfl⟩
  intro es ws h hok
  simp only [fromEdgeList] at hok
  split_ifs at hok with h1 h2 h3
  cases hok
  exact add_edges_weighted_nodes es ws (emptyStore true) h3.symm

end RHG
